import Mathlib

/-!
Shallow embedding of the core of the `wolo` network liveness monitor:
the ICMP checksum routines (`lib/src/icmp/v4.rs`, `lib/src/icmp/v6.rs`),
the staging byte buffer (`lib/src/buf.rs`), the host-name cache
(`wolo/src/host_name_cache.rs`) and the probe scheduler loop
(`wolo/src/ping_loop.rs`).  Bytes are modelled as `Nat`, machine
integers as `Nat` with explicit `% 2^w` where overflow matters, and the
stateful scheduler loop as explicit step functions on a state record.
-/

namespace Wolo

/-! ## ICMP checksums (`lib/src/icmp/v4.rs` and `lib/src/icmp/v6.rs`) -/

/-- Model of `sum_be16`: sum a byte slice as 16-bit big-endian words,
padding a trailing odd byte with zero. -/
def sumBe16 : List Nat → Nat
  | a :: b :: rest => (a * 256 + b) + sumBe16 rest
  | [a] => a * 256
  | [] => 0

/-- Model of the `while (sum >> 16) != 0` end-around-carry folding loop
shared by the v4 and v6 checksum routines. -/
def foldCarry (sum : Nat) : Nat :=
  if sum >>> 16 = 0 then sum
  else foldCarry ((sum &&& 0xFFFF) + (sum >>> 16))
termination_by sum
decreasing_by
  rename_i h
  have hq : 0 < sum >>> 16 := Nat.pos_of_ne_zero h
  have hsplit : sum = 2 ^ 16 * (sum / 2 ^ 16) + sum % 2 ^ 16 :=
    (Nat.div_add_mod sum (2 ^ 16)).symm
  have hand : sum &&& 0xFFFF = sum % 2 ^ 16 := by
    have := Nat.and_pow_two_sub_one_eq_mod sum 16
    simpa using this
  have hshift : sum >>> 16 = sum / 2 ^ 16 := Nat.shiftRight_eq_div_pow sum 16
  rw [hand, hshift]
  have hq' : 0 < sum / 2 ^ 16 := by rw [← hshift]; exact hq
  calc sum % 2 ^ 16 + sum / 2 ^ 16
      < 2 ^ 16 * (sum / 2 ^ 16) + sum % 2 ^ 16 := by
        have : sum / 2 ^ 16 < 2 ^ 16 * (sum / 2 ^ 16) := by
          have h2 : (1 : Nat) < 2 ^ 16 := by norm_num
          calc sum / 2 ^ 16 = 1 * (sum / 2 ^ 16) := (Nat.one_mul _).symm
            _ < 2 ^ 16 * (sum / 2 ^ 16) :=
                (Nat.mul_lt_mul_right hq').mpr h2
        omega
    _ = sum := hsplit.symm

/-- Model of `icmp.get(0..2).unwrap_or_default()`: the first two bytes
when the message has at least two bytes, otherwise the empty slice. -/
def headWords (l : List Nat) : List Nat :=
  if 2 ≤ l.length then l.take 2 else []

/-- Model of `icmp::v4::checksum`: sum bytes `[0..2]` and `[4..]` as
big-endian 16-bit words, fold the end-around carry, and take the bitwise
NOT of the low 16 bits. -/
def v4Checksum (icmp : List Nat) : Nat :=
  0xFFFF ^^^
    (foldCarry (sumBe16 (headWords icmp) + sumBe16 (icmp.drop 4)) % 65536)

/-- Model of `(icmp.len() as u32).to_be_bytes()`. -/
def u32be (n : Nat) : List Nat :=
  let m := n % 2 ^ 32
  [m / 2 ^ 24 % 256, m / 2 ^ 16 % 256, m / 2 ^ 8 % 256, m % 256]

/-- Model of `icmp::v6::checksum`: the v4 folding preceded by the
pseudo-header (16-byte source, 16-byte destination, length as 32-bit
big-endian, a zero byte and next-header 58). -/
def v6Checksum (src dst : List Nat) (icmp : List Nat) : Nat :=
  0xFFFF ^^^
    (foldCarry (sumBe16 src + sumBe16 dst + sumBe16 (u32be icmp.length)
      + sumBe16 [0, 58] + sumBe16 (headWords icmp) + sumBe16 (icmp.drop 4))
      % 65536)

/-- Write a 16-bit checksum big-endian into bytes `[2..4]` of a message,
as `Header::set_checksum` does on the wire representation. -/
def setChecksum (m : List Nat) (c : Nat) : List Nat :=
  (m.set 2 (c % 65536 / 256)).set 3 (c % 256)

/-! ## Buffer (`lib/src/buf.rs`) -/

/-- Model of the error payload `ErrorKind::BufferTooSmall`. -/
structure BufferTooSmall where
  actual : Nat
  needed : Nat
deriving DecidableEq

/-- Model of `Buffer<N>`: `data` is the list of the `init` bytes written
so far (so `data.length` is the `init` field) and `pos` is the read
cursor `at`. -/
structure Buffer where
  cap : Nat
  data : List Nat
  pos : Nat
deriving DecidableEq

/-- Model of `Buffer::new` (MTU-sized). -/
def Buffer.new : Buffer := ⟨1500, [], 0⟩

/-- Model of `Buffer::clear`. -/
def Buffer.clear (b : Buffer) : Buffer := { b with data := [], pos := 0 }

/-- Model of `Buffer::extend_from_slice`: copy
`min(data.len, capacity - init)` bytes into the tail. -/
def Buffer.extendFromSlice (b : Buffer) (d : List Nat) : Buffer :=
  let len := min d.length (b.cap - b.data.length)
  { b with data := b.data ++ d.take len }

/-- Model of `Buffer::as_bytes`: the bytes from the read cursor up to
the end of the written region. -/
def Buffer.asBytes (b : Buffer) : List Nat := b.data.drop b.pos

/-- Model of `Buffer::read::<T>` for a type of the given size: on
success return the viewed bytes and advance the cursor; if fewer than
`pos + size` bytes are written, fail with `BufferTooSmall` and leave the
cursor untouched (the error branch returns before `self.at.set`). -/
def Buffer.read (b : Buffer) (size : Nat) :
    Except BufferTooSmall (List Nat) × Buffer :=
  let endPos := b.pos + size
  if b.data.length < endPos then
    (Except.error ⟨b.data.length, endPos⟩, b)
  else
    (Except.ok ((b.data.drop b.pos).take size), { b with pos := endPos })

/-! ## Association-list maps

The scheduler keeps `HashMap`s and `BTreeMap`s.  They are modelled as
association lists carrying the iteration order; keys stay unique along
every trace because insertion replaces the first binding in place. -/

/-- Lookup of the first binding of a key. -/
def alookup {κ α : Type} [DecidableEq κ] (k : κ) : List (κ × α) → Option α
  | [] => none
  | (k', v) :: xs => if k' = k then some v else alookup k xs

/-- Model of map insertion: replace the first binding in place, or
append a fresh binding. -/
def aset {κ α : Type} [DecidableEq κ] (k : κ) (v : α) :
    List (κ × α) → List (κ × α)
  | [] => [(k, v)]
  | (k', v') :: xs => if k' = k then (k, v) :: xs else (k', v') :: aset k v xs

/-- Model of map removal of a key (keys are unique in every map the
scheduler builds, so dropping every binding of `k` is the behaviour of
`HashMap::remove`). -/
def aremove {κ α : Type} [DecidableEq κ] (k : κ) (l : List (κ × α)) :
    List (κ × α) :=
  l.filter fun p => decide (p.1 ≠ k)

/-- Model of `get_mut` followed by a mutation: update the first binding
of the key in place. -/
def aupdate {κ α : Type} [DecidableEq κ] (k : κ) (f : α → α) :
    List (κ × α) → List (κ × α)
  | [] => []
  | (k', v) :: xs => if k' = k then (k', f v) :: xs else (k', v) :: aupdate k f xs

/-! ## Host-name cache (`wolo/src/host_name_cache.rs`) -/

/-- Model of `NameError`. -/
structure NameError where
  name : String
  error : String
deriving DecidableEq

/-- Model of `CacheNameResult`; addresses are abstracted as naturals. -/
structure CacheNameResult where
  errors : List NameError
  addresses : List Nat
deriving DecidableEq

/-- Model of `HostNameEntry`: a shared result plus the `last` access
instant (instants are naturals counting seconds). -/
structure HostNameEntry where
  results : CacheNameResult
  last : Nat
deriving DecidableEq

/-- Model of `HostNameCache`: host id keyed map of entries. -/
structure HostNameCache where
  map : List (Nat × HostNameEntry)
deriving DecidableEq

/-- Model of `HostNameCache::evict_old` at instant `now`: retain the
entries with `now.saturating_duration_since(entry.last) <= 15 s`
(natural subtraction is saturating). -/
def HostNameCache.evictOld (c : HostNameCache) (now : Nat) : HostNameCache :=
  ⟨c.map.filter fun p => decide (now - p.2.last ≤ 15)⟩

/-- Model of `HostNameCache::get`: a cache hit returns the stored shared
result and leaves the cache untouched; a miss spawns a resolver task and
also leaves the cache untouched until the lookup completes. -/
def HostNameCache.get (c : HostNameCache) (hostId : Nat) :
    Option CacheNameResult × HostNameCache :=
  match alookup hostId c.map with
  | some e => (some e.results, c)
  | none => (none, c)

/-- Model of the completion of a pending `HostNameCacheLookup::get`:
insert the freshly resolved result keyed by the host id with `last`
set to the current instant. -/
def HostNameCache.complete (c : HostNameCache) (hostId : Nat)
    (r : CacheNameResult) (now : Nat) : HostNameCache :=
  ⟨aset hostId ⟨r, now⟩ c.map⟩

/-! ## Ping loop data model (`wolo/src/ping_loop.rs`) -/

/-- Model of `PingKind`. -/
inductive PingKind where
  | V4
  | V6
deriving DecidableEq

/-- Model of `PingErrorKind`; addresses are abstracted as naturals. -/
inductive PingErrorKind where
  | Address (addr : Nat)
  | Host (name : String)
deriving DecidableEq

/-- Model of `PingErrorKind::as_address`. -/
def PingErrorKind.asAddress : PingErrorKind → Option Nat
  | .Address addr => some addr
  | .Host _ => none

/-- Model of the derived `Ord` on `PingErrorKind` as a boolean
less-or-equal: the `Address` variant sorts before `Host`, and payloads
compare componentwise. -/
def PingErrorKind.leB : PingErrorKind → PingErrorKind → Bool
  | .Address a, .Address b => decide (a ≤ b)
  | .Address _, .Host _ => true
  | .Host _, .Address _ => false
  | .Host a, .Host b => (compare a b).isLE

/-- Model of `PingError`. -/
structure PingError where
  error : String
  kind : PingErrorKind
  sampled : Nat
deriving DecidableEq

/-- Model of `PingResult`; outcomes, addresses and checksums are
abstracted as naturals, `rtt` and `sampled` as seconds. -/
structure PingResult where
  kind : PingKind
  outcome : Nat
  code : Nat
  sequence : Nat
  rtt : Nat
  sampled : Nat
  target : Nat
  source : Nat
  dest : Nat
  checksum : Nat
  expectedChecksum : Nat
deriving DecidableEq

/-- Model of `Pinged`. -/
structure Pinged where
  errors : List PingError
  results : List PingResult
deriving DecidableEq

/-- Model of the in-place overwrite performed by
`iter_mut().find(..)` followed by `*r = result`: replace the first
result with the matching target. -/
def replaceFirstResult (r : PingResult) : List PingResult → List PingResult
  | [] => []
  | x :: xs =>
    if x.target = r.target then r :: xs else x :: replaceFirstResult r xs

/-- Model of the in-place overwrite of the first error with the matching
kind. -/
def replaceFirstError (e : PingError) : List PingError → List PingError
  | [] => []
  | x :: xs => if x.kind = e.kind then e :: xs else x :: replaceFirstError e xs

/-- Model of `Pinged::result`: prune errors whose address equals the
target of the new result, then either overwrite the first result with
that target or push and re-sort by target. -/
def Pinged.result (p : Pinged) (result : PingResult) : Pinged :=
  let errors := p.errors.filter fun e =>
    decide (e.kind.asAddress ≠ some result.target)
  if p.results.any fun r => r.target = result.target then
    { errors, results := replaceFirstResult result p.results }
  else
    { errors,
      results := (p.results ++ [result]).insertionSort
        fun a b => a.target ≤ b.target }

/-- Model of `Pinged::error`: for an address-scoped error prune results
with that target, then either overwrite the first error of the same kind
or retain the others, push and re-sort by kind. -/
def Pinged.error (p : Pinged) (error : PingError) : Pinged :=
  let results :=
    match error.kind with
    | .Address addr => p.results.filter fun r => decide (r.target ≠ addr)
    | .Host _ => p.results
  if p.errors.any fun e => e.kind = error.kind then
    { errors := replaceFirstError error p.errors, results }
  else
    { errors :=
        ((p.errors.filter fun e => decide (e.kind ≠ error.kind)) ++ [error])
          |>.insertionSort fun a b => a.kind.leB b.kind = true,
      results }

/-! ## The scheduler loop (`wolo/src/ping_loop.rs`, fn `new`)

The loop multiplexes four event sources; each `tokio::select!` arm is
modelled as an explicit step function on the scheduler state.  Host ids
(`Uuid`), addresses (`IpAddr`) and instants are abstracted as naturals;
durations are in seconds, so `TIMEOUT = 10` and `NEXT = 1`. -/

/-- Model of the per-probe timeout constant (10 s). -/
def TIMEOUT : Nat := 10

/-- Model of the re-probe interval constant (1 s). -/
def NEXT : Nat := 1

/-- Model of the task state enum `What`. -/
inductive What where
  | Ping
  | Timeout
deriving DecidableEq

/-- Model of a scheduler `Task`. -/
structure Task where
  id : Nat
  addr : Nat
  next : Nat
  what : What
deriving DecidableEq

/-- Model of a `Deferred` entry registered for an in-flight echo
request. -/
structure Deferred where
  id : Nat
  addr : Nat
  started : Nat
deriving DecidableEq

/-- Model of the fields of `lib::Response` that the reply branch copies
into a `PingResult`; payloads are abstracted as naturals. -/
structure Response where
  outcome : Nat
  code : Nat
  sequence : Nat
  source : Nat
  dest : Nat
  checksum : Nat
  expectedChecksum : Nat
deriving DecidableEq

/-- Model of the local state of the scheduler loop: the task map, the
deferred map keyed by token, the published snapshot store, the previous
resolutions, and the token counter `PingerService::id`. -/
structure SchedState where
  tasks : List ((Nat × Nat) × Task)
  deferred : List (Nat × Deferred)
  pinged : List (Nat × Pinged)
  domains : List (Nat × CacheNameResult)
  nextToken : Nat
deriving DecidableEq

/-- Empty initial scheduler state. -/
def SchedState.init : SchedState := ⟨[], [], [], [], 0⟩

/-- Update the snapshot entry of a host through
`pinged.entry(id).or_default()` followed by a mutation. -/
def updPinged (id : Nat) (f : Pinged → Pinged) (l : List (Nat × Pinged)) :
    List (Nat × Pinged) :=
  aset id (f ((alookup id l).getD ⟨[], []⟩)) l

/-- Model of the body of the resolution-completion branch once the
dedup guard has passed: wipe the host tasks and deferred entries, clear
the published snapshot, publish the name errors, and schedule one
`Ping` task per resolved address with deadline `now`. -/
def applyDomain (s : SchedState) (id : Nat) (new : CacheNameResult)
    (now : Nat) : SchedState :=
  let tasks := s.tasks.filter fun p => decide (p.2.id ≠ id)
  let deferred := s.deferred.filter fun p => decide (p.2.id ≠ id)
  let p := new.errors.foldl
    (fun p err => p.error ⟨err.error, .Host err.name, now⟩)
    (⟨[], []⟩ : Pinged)
  let tasks := new.addresses.foldl
    (fun ts addr => aset (id, addr) ⟨id, addr, now, What.Ping⟩ ts) tasks
  { tasks, deferred,
    pinged := aset id p s.pinged,
    domains := aset id new s.domains,
    nextToken := s.nextToken }

/-- Model of the resolution-completion branch of the loop: skip when the
new resolution equals the stored previous one, otherwise apply it. -/
def stepDomain (s : SchedState) (id : Nat) (new : CacheNameResult)
    (now : Nat) : SchedState :=
  match alookup id s.domains with
  | some old => if new = old then s else applyDomain s id new now
  | none => applyDomain s id new now

/-- Model of the `PingResult` record built in the reply branch. -/
def mkResult (kind : PingKind) (r : Response) (d : Deferred) (now : Nat) :
    PingResult :=
  { kind, outcome := r.outcome, code := r.code, sequence := r.sequence,
    rtt := now - d.started, sampled := now, target := d.addr,
    source := r.source, dest := r.dest, checksum := r.checksum,
    expectedChecksum := r.expectedChecksum }

/-- Model of the reply branch: remove the deferred entry by token (an
unknown token is dropped); if the task still exists, record the result
in the snapshot and return the task to `Ping` at `now + NEXT`. -/
def stepReply (s : SchedState) (kind : PingKind) (r : Response)
    (token : Nat) (now : Nat) : SchedState :=
  match alookup token s.deferred with
  | none => s
  | some d =>
    let deferred := aremove token s.deferred
    match alookup (d.id, d.addr) s.tasks with
    | none => { s with deferred }
    | some _ =>
      { s with
        deferred := deferred,
        pinged := updPinged d.id (fun p => p.result (mkResult kind r d now))
          s.pinged,
        tasks := aupdate (d.id, d.addr)
          (fun t => { t with next := now + NEXT, what := What.Ping })
          s.tasks }

/-- Environment outcome of `PingerService::ping` for a dispatched task:
the echo request was sent, the address was rejected as non-unicast, or
the send failed with an error message. -/
inductive PingAttempt where
  | sent
  | nonUnicast
  | failed (msg : String)
deriving DecidableEq

/-- Model of the deadline branch: look up the fired task and dispatch on
its state.  `Ping` with a successful send registers the token in the
deferred map and transitions to `Timeout` at `now + TIMEOUT`; a
non-unicast address removes the task; a failed send records an
address-scoped error and retries after `NEXT`.  `Timeout` records an
address-scoped `"timeout"` error and returns to `Ping` at
`now + NEXT`. -/
def stepDeadline (s : SchedState) (key : Nat × Nat) (now : Nat)
    (attempt : PingAttempt) : SchedState :=
  match alookup key s.tasks with
  | none => s
  | some t =>
    match t.what with
    | What.Ping =>
      match attempt with
      | .failed msg =>
        { s with
          pinged := updPinged t.id
            (fun p => p.error ⟨msg, .Address t.addr, now⟩) s.pinged,
          tasks := aupdate key
            (fun t => { t with next := now + NEXT, what := What.Ping })
            s.tasks }
      | .nonUnicast => { s with tasks := aremove key s.tasks }
      | .sent =>
        { s with
          deferred := aset s.nextToken ⟨t.id, t.addr, now⟩ s.deferred,
          tasks := aupdate key
            (fun t => { t with next := now + TIMEOUT, what := What.Timeout })
            s.tasks,
          nextToken := (s.nextToken + 1) % 2 ^ 64 }
    | What.Timeout =>
      { s with
        pinged := updPinged t.id
          (fun p => p.error ⟨"timeout", .Address t.addr, now⟩) s.pinged,
        tasks := aupdate key
          (fun t => { t with next := now + NEXT, what := What.Ping })
          s.tasks }

/-- Model of
`tasks.iter().min_by_key(|(_, task)| task.next)`: the first entry in
iteration order whose deadline is minimal (`min_by_key` keeps the
earlier element unless a later one is strictly smaller). -/
def selectNext (ts : List ((Nat × Nat) × Task)) :
    Option ((Nat × Nat) × Task) :=
  match ts with
  | [] => none
  | x :: xs =>
    some (xs.foldl (fun acc y => if y.2.next < acc.2.next then y else acc) x)

/-! ## Helper lemmas -/

theorem alookup_aset_self {κ α : Type} [DecidableEq κ] (k : κ) (v : α) :
    ∀ l : List (κ × α), alookup k (aset k v l) = some v := by
  intro l
  induction l with
  | nil => simp [aset, alookup]
  | cons p xs ih =>
    by_cases h : p.1 = k
    · simp [aset, h, alookup]
    · simpa [aset, h, alookup] using ih

theorem alookup_aupdate_self {κ α : Type} [DecidableEq κ] (k : κ)
    (f : α → α) :
    ∀ l : List (κ × α), alookup k (aupdate k f l) = (alookup k l).map f := by
  intro l
  induction l with
  | nil => simp [aupdate, alookup]
  | cons p xs ih =>
    by_cases h : p.1 = k
    · simp [aupdate, h, alookup]
    · simpa [aupdate, h, alookup] using ih

theorem alookup_aremove_self {κ α : Type} [DecidableEq κ] (k : κ)
    (l : List (κ × α)) : alookup k (aremove k l) = none := by
  induction l with
  | nil => simp [aremove, alookup]
  | cons p xs ih =>
    by_cases h : p.1 = k
    · simpa [aremove, h, List.filter] using
        (by simpa [aremove] using ih : alookup k (aremove k xs) = none)
    · simpa [aremove, List.filter, h, alookup] using
        (by simpa [aremove] using ih : alookup k (aremove k xs) = none)

theorem mem_aset {κ α : Type} [DecidableEq κ] (k : κ) (v : α)
    (p : κ × α) : ∀ l : List (κ × α), p ∈ aset k v l → p ∈ l ∨ p = (k, v) := by
  intro l
  induction l with
  | nil => simp [aset]
  | cons q xs ih =>
    by_cases h : q.1 = k
    · simp only [aset, if_pos h, List.mem_cons]
      tauto
    · simp only [aset, if_neg h, List.mem_cons]
      intro hp
      rcases hp with h1 | h2
      · tauto
      · rcases ih h2 with h3 | h4 <;> tauto

theorem mem_replaceFirstResult (r : PingResult) :
    ∀ l : List PingResult, ∀ x ∈ replaceFirstResult r l, x = r ∨ x ∈ l := by
  intro l
  induction l with
  | nil => simp [replaceFirstResult]
  | cons y ys ih =>
    intro x hx
    by_cases h : y.target = r.target
    · simp only [replaceFirstResult, if_pos h, List.mem_cons] at hx
      rcases hx with rfl | hx
      · exact Or.inl rfl
      · exact Or.inr (List.mem_cons_of_mem _ hx)
    · simp only [replaceFirstResult, if_neg h, List.mem_cons] at hx
      rcases hx with rfl | hx
      · exact Or.inr (List.mem_cons_self _ _)
      · rcases ih x hx with h1 | h2
        · exact Or.inl h1
        · exact Or.inr (List.mem_cons_of_mem _ h2)

theorem self_mem_replaceFirstResult (r : PingResult) :
    ∀ l : List PingResult, (∃ y ∈ l, y.target = r.target) →
      r ∈ replaceFirstResult r l := by
  intro l
  induction l with
  | nil => simp
  | cons y ys ih =>
    rintro ⟨z, hz, hzt⟩
    by_cases h : y.target = r.target
    · simp [replaceFirstResult, if_pos h]
    · simp only [replaceFirstResult, if_neg h, List.mem_cons]
      rcases List.mem_cons.mp hz with rfl | hz'
      · exact absurd hzt h
      · exact Or.inr (ih ⟨z, hz', hzt⟩)

theorem mem_replaceFirstError (e : PingError) :
    ∀ l : List PingError, ∀ x ∈ replaceFirstError e l, x = e ∨ x ∈ l := by
  intro l
  induction l with
  | nil => simp [replaceFirstError]
  | cons y ys ih =>
    intro x hx
    by_cases h : y.kind = e.kind
    · simp only [replaceFirstError, if_pos h, List.mem_cons] at hx
      rcases hx with rfl | hx
      · exact Or.inl rfl
      · exact Or.inr (List.mem_cons_of_mem _ hx)
    · simp only [replaceFirstError, if_neg h, List.mem_cons] at hx
      rcases hx with rfl | hx
      · exact Or.inr (List.mem_cons_self _ _)
      · rcases ih x hx with h1 | h2
        · exact Or.inl h1
        · exact Or.inr (List.mem_cons_of_mem _ h2)

theorem mem_result_results (p : Pinged) (res : PingResult) :
    ∀ r ∈ (p.result res).results, r = res ∨ r ∈ p.results := by
  intro r hr
  unfold Pinged.result at hr
  by_cases h : p.results.any fun x => x.target = res.target
  · simp only [h, if_pos] at hr
    exact mem_replaceFirstResult res p.results r hr
  · simp only [h] at hr
    simp only [Bool.false_eq_true, if_false] at hr
    rcases List.mem_append.mp ((List.mem_insertionSort _).mp hr) with h1 | h2
    · exact Or.inr h1
    · exact Or.inl (List.mem_singleton.mp h2)

theorem self_mem_result (p : Pinged) (res : PingResult) :
    res ∈ (p.result res).results := by
  unfold Pinged.result
  by_cases h : p.results.any fun x => x.target = res.target
  · simp only [h, if_pos]
    refine self_mem_replaceFirstResult res p.results ?_
    rcases List.any_eq_true.mp h with ⟨x, hx, hxt⟩
    exact ⟨x, hx, of_decide_eq_true hxt⟩
  · simp only [h]
    simp only [Bool.false_eq_true, if_false]
    exact (List.mem_insertionSort _).mpr (List.mem_append.mpr
      (Or.inr (List.mem_singleton.mpr rfl)))

theorem mem_result_errors (p : Pinged) (res : PingResult) :
    ∀ e ∈ (p.result res).errors,
      e ∈ p.errors ∧ e.kind.asAddress ≠ some res.target := by
  intro e he
  unfold Pinged.result at he
  by_cases h : p.results.any fun x => x.target = res.target <;>
    simp only [h, if_pos, Bool.false_eq_true, if_false] at he <;>
    exact ⟨(List.mem_filter.mp he).1,
      of_decide_eq_true (List.mem_filter.mp he).2⟩

theorem mem_error_errors (p : Pinged) (err : PingError) :
    ∀ e ∈ (p.error err).errors, e = err ∨ e ∈ p.errors := by
  intro e he
  unfold Pinged.error at he
  by_cases h : p.errors.any fun x => x.kind = err.kind
  · simp only [h, if_pos] at he
    exact mem_replaceFirstError err p.errors e he
  · simp only [h, Bool.false_eq_true, if_false] at he
    rcases List.mem_append.mp ((List.mem_insertionSort _).mp he) with h1 | h2
    · exact Or.inr (List.mem_filter.mp h1).1
    · exact Or.inl (List.mem_singleton.mp h2)

theorem error_results_eq (p : Pinged) (err : PingError) :
    (p.error err).results =
      match err.kind with
      | PingErrorKind.Address a => p.results.filter fun r => decide (r.target ≠ a)
      | PingErrorKind.Host _ => p.results := by
  unfold Pinged.error
  split <;> dsimp only <;> split <;> rfl

theorem mem_error_results (p : Pinged) (err : PingError) :
    ∀ r ∈ (p.error err).results,
      r ∈ p.results ∧ ∀ a, err.kind = PingErrorKind.Address a → r.target ≠ a := by
  intro r hr
  rw [error_results_eq] at hr
  rcases hk : err.kind with a | name
  · rw [hk] at hr
    refine ⟨(List.mem_filter.mp hr).1, ?_⟩
    intro a' ha'
    injection ha' with h'
    subst h'
    exact of_decide_eq_true (List.mem_filter.mp hr).2
  · rw [hk] at hr
    exact ⟨hr, by intro a' ha'; cases ha'⟩

theorem foldl_min_spec (xs : List ((Nat × Nat) × Task))
    (acc : (Nat × Nat) × Task) :
    (xs.foldl (fun acc y => if y.2.next < acc.2.next then y else acc) acc = acc
      ∨ xs.foldl (fun acc y => if y.2.next < acc.2.next then y else acc) acc
          ∈ xs) ∧
    (xs.foldl (fun acc y => if y.2.next < acc.2.next then y else acc)
        acc).2.next ≤ acc.2.next ∧
    ∀ y ∈ xs,
      (xs.foldl (fun acc y => if y.2.next < acc.2.next then y else acc)
          acc).2.next ≤ y.2.next := by
  induction xs generalizing acc with
  | nil => simp
  | cons x xs ih =>
    simp only [List.foldl_cons]
    by_cases h : x.2.next < acc.2.next
    · rw [if_pos h]
      rcases ih x with ⟨hmem, hle, hall⟩
      refine ⟨?_, ?_, ?_⟩
      · rcases hmem with h1 | h2
        · exact Or.inr (by rw [h1]; exact List.mem_cons_self x xs)
        · exact Or.inr (List.mem_cons_of_mem _ h2)
      · exact le_trans hle (Nat.le_of_lt h)
      · intro y hy
        rcases List.mem_cons.mp hy with rfl | hy'
        · exact hle
        · exact hall y hy'
    · rw [if_neg h]
      rcases ih acc with ⟨hmem, hle, hall⟩
      refine ⟨?_, hle, ?_⟩
      · rcases hmem with h1 | h2
        · exact Or.inl h1
        · exact Or.inr (List.mem_cons_of_mem _ h2)
      · intro y hy
        rcases List.mem_cons.mp hy with rfl | hy'
        · exact le_trans hle (Nat.le_of_not_lt h)
        · exact hall y hy'

/-- Pinged snapshots only touched by `Pinged::error` with host-scoped
kinds keep empty results and only host-scoped errors. -/
theorem foldl_host_errors (now : Nat) (errs : List NameError) :
    ∀ start : Pinged,
      start.results = [] →
      (∀ e ∈ start.errors, e.kind.asAddress = none) →
      (errs.foldl (fun p err =>
          p.error ⟨err.error, PingErrorKind.Host err.name, now⟩)
        start).results = [] ∧
      ∀ e ∈ (errs.foldl (fun p err =>
          p.error ⟨err.error, PingErrorKind.Host err.name, now⟩)
        start).errors, e.kind.asAddress = none := by
  induction errs with
  | nil => intro start h1 h2; exact ⟨h1, h2⟩
  | cons err rest ih =>
    intro start h1 h2
    simp only [List.foldl_cons]
    refine ih _ ?_ ?_
    · rw [error_results_eq]
      dsimp only
      exact h1
    · intro e he
      rcases mem_error_errors _ _ e he with rfl | hold
      · rfl
      · exact h2 e hold

/-- Membership in the task map after scheduling one `Ping` task per
resolved address. -/
theorem mem_foldl_aset_tasks (id now : Nat) (addrs : List Nat) :
    ∀ (ts : List ((Nat × Nat) × Task)),
      ∀ p ∈ addrs.foldl (fun ts addr =>
          aset (id, addr) ⟨id, addr, now, What.Ping⟩ ts) ts,
        p ∈ ts ∨ ∃ a ∈ addrs, p = ((id, a), ⟨id, a, now, What.Ping⟩) := by
  induction addrs with
  | nil => intro ts p hp; exact Or.inl hp
  | cons a rest ih =>
    intro ts p hp
    simp only [List.foldl_cons] at hp
    rcases ih _ p hp with h1 | ⟨a', ha', rfl⟩
    · rcases mem_aset _ _ _ _ h1 with h2 | h3
      · exact Or.inl h2
      · exact Or.inr ⟨a, List.mem_cons_self _ _, h3⟩
    · exact Or.inr ⟨a', List.mem_cons_of_mem _ ha', rfl⟩

/-- Disjointness of a snapshot: no address is keyed both by a result and
by an error. -/
def Pinged.disjoint (p : Pinged) : Prop :=
  ∀ r ∈ p.results, ∀ e ∈ p.errors, e.kind ≠ PingErrorKind.Address r.target

theorem foldCarry_of_small (s : Nat) (h : s >>> 16 = 0) : foldCarry s = s := by
  unfold foldCarry
  simp [h]

theorem length_setChecksum (m : List Nat) (c : Nat) :
    (setChecksum m c).length = m.length := by
  simp [setChecksum]

theorem take2_setChecksum (m : List Nat) (c : Nat) :
    (setChecksum m c).take 2 = m.take 2 := by
  unfold setChecksum
  rw [List.set_take, List.set_take,
    List.set_eq_of_length_le (n := 2), List.set_eq_of_length_le (n := 3)]
  · exact le_trans (List.length_take_le 2 m) (by norm_num)
  · exact List.length_take_le 2 m

theorem drop4_setChecksum (m : List Nat) (c : Nat) :
    (setChecksum m c).drop 4 = m.drop 4 := by
  simp [setChecksum, List.drop_set]

theorem headWords_setChecksum (m : List Nat) (c : Nat) :
    headWords (setChecksum m c) = headWords m := by
  unfold headWords
  rw [length_setChecksum]
  split
  · exact take2_setChecksum m c
  · rfl

theorem msgS1Checksum :
    v4Checksum [0x08, 0, 0, 0, 0, 1, 0, 1, 0x68, 0x69] = 0x8f94 := by
  unfold v4Checksum
  rw [show sumBe16 (headWords [0x08, 0, 0, 0, 0, 1, 0, 1, 0x68, 0x69])
      + sumBe16 ([0x08, 0, 0, 0, 0, 1, 0, 1, 0x68, 0x69].drop 4) = 28779
    from by decide]
  rw [foldCarry_of_small 28779 (by decide)]
  decide

theorem v4Checksum_setChecksum (m : List Nat) (c : Nat) :
    v4Checksum (setChecksum m c) = v4Checksum m := by
  unfold v4Checksum
  rw [headWords_setChecksum, drop4_setChecksum]

theorem v6Checksum_setChecksum (src dst m : List Nat) (c : Nat) :
    v6Checksum src dst (setChecksum m c) = v6Checksum src dst m := by
  unfold v6Checksum
  rw [headWords_setChecksum, drop4_setChecksum, length_setChecksum]

/-! ## Concrete traces and inputs used by the claim theorems -/

/-- Trace: host 7 resolves to the single address 42 at instant 0. -/
def trcS1 : SchedState :=
  stepDomain SchedState.init 7 ⟨[], [42]⟩ 0

/-- Trace: the `Ping` deadline fires at instant 0 and the echo request
with token 0 is sent. -/
def trcS2 : SchedState := stepDeadline trcS1 (7, 42) 0 PingAttempt.sent

/-- Trace: the `Timeout` deadline fires at instant 10. -/
def trcS3 : SchedState := stepDeadline trcS2 (7, 42) 10 PingAttempt.sent

/-- A concrete reply payload. -/
def trcResp : Response := ⟨0, 0, 1, 5, 6, 0, 0⟩

/-- Trace: a late reply carrying token 0 arrives at instant 12, after
the timeout already fired at instant 10. -/
def trcS4 : SchedState := stepReply trcS3 PingKind.V4 trcResp 0 12

/-- A scheduler state with one task of host 3 at address 9 in `Timeout`
and one deferred entry with token 0 started at instant 0. -/
def c2State : SchedState :=
  ⟨[((3, 9), ⟨3, 9, 10, What.Timeout⟩)], [(0, ⟨3, 9, 0⟩)], [], [], 1⟩

/-- A task of host 1 at address 1 with deadline 5. -/
def tA : (Nat × Nat) × Task := ((1, 1), ⟨1, 1, 5, What.Ping⟩)

/-- A task of host 2 at address 2 with the same deadline 5. -/
def tB : (Nat × Nat) × Task := ((2, 2), ⟨2, 2, 5, What.Ping⟩)

/-- A scheduler state for host 1 whose previous resolution was the
address set `{5}`, with a live task and deferred entry for address 5. -/
def c4State : SchedState :=
  ⟨[((1, 5), ⟨1, 5, 0, What.Timeout⟩)], [(0, ⟨1, 5, 0⟩)], [],
    [(1, ⟨[], [5]⟩)], 1⟩

/-- A concrete ping result targeting address 42. -/
def res0 : PingResult := ⟨PingKind.V4, 0, 0, 1, 2, 3, 42, 5, 6, 7, 8⟩

/-- A concrete address-scoped timeout error for address 42. -/
def err0 : PingError := ⟨"timeout", PingErrorKind.Address 42, 3⟩

/-- The S1 fixture message of the spec: an ICMPv4 echo request with
identifier 1, sequence 1 and payload `hi`. -/
def msgS1 : List Nat := [0x08, 0, 0, 0, 0, 1, 0, 1, 0x68, 0x69]

/-- The S3 fixture buffer of the spec, extended with six bytes. -/
def bufS3 : Buffer :=
  Buffer.new.extendFromSlice [0xde, 0xad, 0xbe, 0xef, 0x12, 0x34]

/-- A cache entry last accessed at instant 0. -/
def c9Entry : HostNameEntry := ⟨⟨[], [4]⟩, 0⟩

/-- A cache holding `c9Entry` under host id 0. -/
def c9Cache : HostNameCache := ⟨[(0, c9Entry)]⟩

/-! ## Claim theorems -/

/-- C1: the claim states that the deferred map only holds tokens of
tasks in `Timeout` and that a token is gone once its timeout fired.  On
the code the `What::Timeout` branch never removes the deferred entry:
after the timeout of the probe with token 0 fires, the token is still
present while its task is back in `Ping`, and a late reply carrying the
token is recorded as a result (pruning the timeout error) instead of
being dropped. -/
theorem timeout_keeps_deferred_token :
    alookup 0 trcS3.deferred = some ⟨7, 42, 0⟩ ∧
    (alookup (7, 42) trcS3.tasks).map Task.what = some What.Ping ∧
    (alookup 7 trcS4.pinged).map
      (fun p => p.results.map fun r => (r.target, r.rtt)) = some [(42, 12)] ∧
    (alookup 7 trcS4.pinged).map (fun p => p.errors.length) = some 0 := by
  decide

/-- C2 counterexample: with `started_at = 0` and `now = 5` the reply
branch sets the next deadline to `now + 1 s = 6`, not
`max(started_at + 1 s, now) = 5` as the claim states. -/
theorem reply_deadline_counterexample :
    (alookup (3, 9) (stepReply c2State PingKind.V4 trcResp 0 5).tasks).map
      Task.next = some 6 ∧ (6 : Nat) ≠ max (0 + 1) 5 := by
  decide

/-- C2 amended: when a reply token matches a deferred entry and the
task exists, the scheduler removes the deferred entry, records a result
for the address with RTT `now − started_at`, and transitions the task to
`Ping` with deadline `now + 1 s` (not `max(started_at + 1 s, now)`). -/
theorem reply_branch_updates (s : SchedState) (kind : PingKind)
    (r : Response) (token now : Nat) (d : Deferred) (t : Task)
    (hd : alookup token s.deferred = some d)
    (ht : alookup (d.id, d.addr) s.tasks = some t) :
    alookup (d.id, d.addr) (stepReply s kind r token now).tasks
      = some { t with next := now + NEXT, what := What.Ping } ∧
    alookup token (stepReply s kind r token now).deferred = none ∧
    ∃ pg, alookup d.id (stepReply s kind r token now).pinged = some pg ∧
      mkResult kind r d now ∈ pg.results ∧
      (mkResult kind r d now).rtt = now - d.started ∧
      (mkResult kind r d now).target = d.addr := by
  unfold stepReply
  rw [hd]
  dsimp only
  rw [ht]
  dsimp only
  refine ⟨?_, ?_, ?_⟩
  · rw [alookup_aupdate_self, ht]
    rfl
  · exact alookup_aremove_self _ _
  · refine ⟨((alookup d.id s.pinged).getD ⟨[], []⟩).result
        (mkResult kind r d now), ?_, ?_, rfl, rfl⟩
    · unfold updPinged
      exact alookup_aset_self _ _ _
    · exact self_mem_result _ _

/-- C2 witness: the amended reply behaviour evaluated on the concrete
state `c2State`. -/
theorem reply_branch_updates_witness :
    alookup ((3 : Nat), (9 : Nat))
        (stepReply c2State PingKind.V4 trcResp 0 5).tasks
      = some ⟨3, 9, 5 + NEXT, What.Ping⟩ ∧
    alookup 0 (stepReply c2State PingKind.V4 trcResp 0 5).deferred = none ∧
    ∃ pg, alookup 3 (stepReply c2State PingKind.V4 trcResp 0 5).pinged
        = some pg ∧
      mkResult PingKind.V4 trcResp ⟨3, 9, 0⟩ 5 ∈ pg.results ∧
      (mkResult PingKind.V4 trcResp ⟨3, 9, 0⟩ 5).rtt = 5 - 0 ∧
      (mkResult PingKind.V4 trcResp ⟨3, 9, 0⟩ 5).target = 9 :=
  reply_branch_updates c2State PingKind.V4 trcResp 0 5 ⟨3, 9, 0⟩
    ⟨3, 9, 10, What.Timeout⟩ (by decide) (by decide)

/-- C3 counterexample: two task sets with the same contents but opposite
iteration order make `min_by_key` pick different tasks; with equal
deadlines the pick is not the lexicographic minimum by
`(deadline, host_id, addr)` and is not determined by the contents. -/
theorem select_order_dependent :
    selectNext [tB, tA] = some tB ∧ selectNext [tA, tB] = some tA ∧
    tA ≠ tB ∧ tA.2.next = tB.2.next ∧ tA.1.1 < tB.1.1 := by
  decide

/-- C3 amended: the selected task always has a minimal deadline in the
task set, but ties between equal deadlines follow the map iteration
order (no host_id/addr tie-break). -/
theorem select_min_deadline (ts : List ((Nat × Nat) × Task))
    (e : (Nat × Nat) × Task) (h : selectNext ts = some e) :
    e ∈ ts ∧ ∀ y ∈ ts, e.2.next ≤ y.2.next := by
  cases ts with
  | nil => cases h
  | cons x xs =>
    unfold selectNext at h
    injection h with h
    subst h
    rcases foldl_min_spec xs x with ⟨hmem, hle, hall⟩
    refine ⟨?_, ?_⟩
    · rcases hmem with h1 | h2
      · rw [h1]; exact List.mem_cons_self _ _
      · exact List.mem_cons_of_mem _ h2
    · intro y hy
      rcases List.mem_cons.mp hy with rfl | hy'
      · exact hle
      · exact hall y hy'

/-- C3 witness: the amended selection bound evaluated on a concrete
task list. -/
theorem select_min_deadline_witness :
    tB ∈ [tB, tA] ∧ ∀ y ∈ [tB, tA], tB.2.next ≤ y.2.next :=
  select_min_deadline [tB, tA] tB (by decide)

/-- C4: after a resolution whose address set changed, no task of the
host refers to an address outside the new set, no deferred entry of the
host survives, and the published snapshot of the host holds no result
and no address-scoped error at all: both lists are cleared and only the
host-scoped name errors are republished. -/
theorem resolution_change_wipes (s : SchedState) (id : Nat)
    (new : CacheNameResult) (now A : Nat)
    (hch : ∀ old, alookup id s.domains = some old → new ≠ old)
    (hA : A ∉ new.addresses) :
    (∀ p ∈ (stepDomain s id new now).tasks, p.2.id = id → p.2.addr ≠ A) ∧
    (∀ q ∈ (stepDomain s id new now).deferred, q.2.id ≠ id) ∧
    ∃ pg, alookup id (stepDomain s id new now).pinged = some pg ∧
      pg.results = [] ∧ ∀ e ∈ pg.errors, e.kind.asAddress = none := by
  have hs : stepDomain s id new now = applyDomain s id new now := by
    unfold stepDomain
    cases hdom : alookup id s.domains with
    | none => rfl
    | some old => simp [hch old hdom]
  rw [hs]
  unfold applyDomain
  dsimp only
  refine ⟨?_, ?_, ?_⟩
  · intro p hp hid
    rcases mem_foldl_aset_tasks id now new.addresses _ p hp with h1 | ⟨a, ha, rfl⟩
    · exact absurd hid (of_decide_eq_true (List.mem_filter.mp h1).2)
    · dsimp only
      intro hAa
      exact hA (hAa ▸ ha)
  · intro q hq
    exact of_decide_eq_true (List.mem_filter.mp hq).2
  · exact ⟨_, alookup_aset_self _ _ _,
      foldl_host_errors now new.errors ⟨[], []⟩ rfl (by intro e he; cases he)⟩

/-- C4 witness: the wipe evaluated on a host whose resolution changes
from the address set `{5}` to `{6}`, checking address 5. -/
theorem resolution_change_wipes_witness :
    (∀ p ∈ (stepDomain c4State 1 ⟨[], [6]⟩ 3).tasks,
      p.2.id = 1 → p.2.addr ≠ 5) ∧
    (∀ q ∈ (stepDomain c4State 1 ⟨[], [6]⟩ 3).deferred, q.2.id ≠ 1) ∧
    ∃ pg, alookup 1 (stepDomain c4State 1 ⟨[], [6]⟩ 3).pinged = some pg ∧
      pg.results = [] ∧ ∀ e ∈ pg.errors, e.kind.asAddress = none :=
  resolution_change_wipes c4State 1 ⟨[], [6]⟩ 3 5
    (by
      intro old h
      rw [show alookup 1 c4State.domains = some ⟨[], [5]⟩ from rfl] at h
      injection h with h
      subst h
      decide)
    (by decide)

/-- C5: `Pinged::result` and `Pinged::error` both preserve the
invariant that no address is keyed by a result and an error at the same
time: `result` prunes the address-scoped errors of its target before
inserting, `error` with an address-scoped kind prunes the results with
that target before inserting. -/
theorem pinged_ops_preserve_disjoint (p : Pinged) (res : PingResult)
    (err : PingError) (h : p.disjoint) :
    (p.result res).disjoint ∧ (p.error err).disjoint := by
  constructor
  · intro r hr e he
    rcases mem_result_errors p res e he with ⟨heold, hne⟩
    rcases mem_result_results p res r hr with rfl | hrold
    · intro hk
      exact hne (by rw [hk]; rfl)
    · exact h r hrold e heold
  · intro r hr e he
    rcases mem_error_results p err r hr with ⟨hrold, hne⟩
    rcases mem_error_errors p err e he with rfl | heold
    · intro hk
      exact hne r.target hk rfl
    · exact h r hrold e heold

/-- C5 witness: disjointness preservation evaluated on the empty
snapshot with a concrete result and error. -/
theorem pinged_ops_preserve_disjoint_witness :
    (Pinged.result ⟨[], []⟩ res0).disjoint ∧
    (Pinged.error ⟨[], []⟩ err0).disjoint :=
  pinged_ops_preserve_disjoint ⟨[], []⟩ res0 err0
    (by intro r hr; cases hr)

/-- C6 counterexample: the v4 checksum of the S1 fixture message is not
the value `0xd5cd` stated by the spec. -/
theorem v4_checksum_s1_ne_spec : v4Checksum msgS1 ≠ 0xd5cd := by
  rw [show v4Checksum msgS1 = 0x8f94 from msgS1Checksum]
  decide

/-- C6 amended: the v4 checksum of the 10-byte message
`08 00 00 00 00 01 00 01 68 69` equals `0x8f94`. -/
theorem v4_checksum_s1_value : v4Checksum msgS1 = 0x8f94 :=
  msgS1Checksum

/-- C7 counterexample: writing the computed checksum into bytes
`[2..4]` of the S1 message and recomputing does not give 0: the
checksum routine skips bytes `[2..4]`, so it returns the injected value
itself. -/
theorem inject_recompute_ne_zero :
    v4Checksum (setChecksum msgS1 (v4Checksum msgS1)) ≠ 0 := by
  rw [v4Checksum_setChecksum,
    show v4Checksum msgS1 = 0x8f94 from msgS1Checksum]
  decide

/-- C7 amended: for every message, recomputing the checksum after
injecting any value into bytes `[2..4]` returns the checksum of the
original message (the checksum field is excluded from the sum), so the
round trip yields the injected checksum again rather than 0; the same
invariance holds for the v6 checksum with its pseudo-header. -/
theorem inject_recompute_invariant :
    (∀ (m : List Nat) (c : Nat),
      v4Checksum (setChecksum m c) = v4Checksum m) ∧
    ∀ (src dst m : List Nat) (c : Nat),
      v6Checksum src dst (setChecksum m c) = v6Checksum src dst m :=
  ⟨v4Checksum_setChecksum, v6Checksum_setChecksum⟩

/-- C8: a buffer extended with the six bytes `de ad be ef 12 34` serves
a first 4-byte read returning `[de, ad, be, ef]` and advancing the
cursor to 4; a second 4-byte read fails with
`BufferTooSmall{actual: 6, needed: 8}`.  In general a read of `size`
bytes advances the cursor by `size` on success and fails with
`actual = init` and `needed = pos + size` whenever `init < pos + size`. -/
theorem buffer_read_behaviour :
    (bufS3.read 4).1 = Except.ok [0xde, 0xad, 0xbe, 0xef] ∧
    (bufS3.read 4).2.pos = 4 ∧
    ((bufS3.read 4).2.read 4).1 = Except.error ⟨6, 8⟩ ∧
    (∀ (b : Buffer) (size : Nat), b.pos + size ≤ b.data.length →
      (b.read size).2.pos = b.pos + size ∧
      (b.read size).1 = Except.ok ((b.data.drop b.pos).take size)) ∧
    (∀ (b : Buffer) (size : Nat), b.data.length < b.pos + size →
      b.read size = (Except.error ⟨b.data.length, b.pos + size⟩, b)) := by
  refine ⟨rfl, rfl, rfl, ?_, ?_⟩
  · intro b size h
    unfold Buffer.read
    rw [if_neg (Nat.not_lt.mpr h)]
    exact ⟨rfl, rfl⟩
  · intro b size h
    unfold Buffer.read
    rw [if_pos h]

/-- C8 witness: the general read clauses evaluated on the concrete S3
buffer. -/
theorem buffer_read_behaviour_witness :
    ((bufS3.read 2).2.pos = bufS3.pos + 2 ∧
      (bufS3.read 2).1
        = Except.ok ((bufS3.data.drop bufS3.pos).take 2)) ∧
    bufS3.read 7
      = (Except.error ⟨bufS3.data.length, bufS3.pos + 7⟩, bufS3) :=
  ⟨buffer_read_behaviour.2.2.2.1 bufS3 2 (by decide),
    buffer_read_behaviour.2.2.2.2 bufS3 7 (by decide)⟩

/-- C9 counterexample: an entry whose last access lies exactly 15
seconds in the past is retained by `evict_old`, although the claim
demands eviction after "at least 15 seconds"; and a cache hit through
`get` returns the entry but leaves the cache, and hence the stored
`last_access`, unchanged. -/
theorem cache_ttl_counterexample :
    alookup 0 ((c9Cache.evictOld 15).map) = some c9Entry ∧
    c9Entry.last = 0 ∧
    (c9Cache.get 0).1 = some c9Entry.results ∧
    (c9Cache.get 0).2 = c9Cache := by
  decide

/-- C9 amended: `evict_old` retains an entry exactly when at most 15
seconds elapsed since its `last_access` (eviction needs strictly more
than 15 seconds); a cache hit through `get` does not refresh
`last_access`, which is set only when a pending lookup completes. -/
theorem cache_ttl_behaviour :
    (∀ (c : HostNameCache) (now k : Nat) (e : HostNameEntry),
      (k, e) ∈ (c.evictOld now).map ↔ (k, e) ∈ c.map ∧ now - e.last ≤ 15) ∧
    (∀ (c : HostNameCache) (id : Nat), (c.get id).2 = c) ∧
    ∀ (c : HostNameCache) (id : Nat) (r : CacheNameResult) (now : Nat),
      alookup id (c.complete id r now).map = some ⟨r, now⟩ := by
  refine ⟨?_, ?_, ?_⟩
  · intro c now k e
    unfold HostNameCache.evictOld
    constructor
    · intro h
      exact ⟨(List.mem_filter.mp h).1,
        of_decide_eq_true (List.mem_filter.mp h).2⟩
    · intro h
      exact List.mem_filter.mpr ⟨h.1, decide_eq_true h.2⟩
  · intro c id
    unfold HostNameCache.get
    split <;> rfl
  · intro c id r now
    unfold HostNameCache.complete
    exact alookup_aset_self _ _ _

/-- C10: a failed read leaves the buffer unchanged — the cursor is not
advanced, the error carries `actual = init` and `needed = pos + size`,
`as_bytes` still returns the same slice — and the same read retried
after appending more bytes succeeds and observes the bytes starting at
the original position. -/
theorem buffer_failed_read_pure (b : Buffer) (size : Nat) (d : List Nat)
    (hfail : b.data.length < b.pos + size)
    (hpos : b.pos ≤ b.data.length) :
    (b.read size).2 = b ∧
    (b.read size).1 = Except.error ⟨b.data.length, b.pos + size⟩ ∧
    (b.read size).2.asBytes = b.asBytes ∧
    (b.pos + size ≤ (b.extendFromSlice d).data.length →
      ((b.extendFromSlice d).read size).1 =
        Except.ok ((b.asBytes
          ++ d.take (min d.length (b.cap - b.data.length))).take size)) := by
  have hread : b.read size = (Except.error ⟨b.data.length, b.pos + size⟩, b) := by
    unfold Buffer.read
    rw [if_pos hfail]
  refine ⟨by rw [hread], by rw [hread], by rw [hread], ?_⟩
  intro hok
  unfold Buffer.read
  have hpos' : (b.extendFromSlice d).pos = b.pos := rfl
  rw [hpos', if_neg (Nat.not_lt.mpr hok)]
  unfold Buffer.extendFromSlice Buffer.asBytes
  dsimp only
  rw [List.drop_append_of_le_length hpos]

/-- C10 witness: the failure purity evaluated on a concrete buffer,
then retried after two more bytes arrive. -/
theorem buffer_failed_read_pure_witness :
    ((⟨1500, [1, 2, 3], 1⟩ : Buffer).read 4).2 = ⟨1500, [1, 2, 3], 1⟩ ∧
    ((⟨1500, [1, 2, 3], 1⟩ : Buffer).read 4).1 = Except.error ⟨3, 1 + 4⟩ ∧
    ((⟨1500, [1, 2, 3], 1⟩ : Buffer).read 4).2.asBytes
      = (⟨1500, [1, 2, 3], 1⟩ : Buffer).asBytes ∧
    (1 + 4 ≤ ((⟨1500, [1, 2, 3], 1⟩ : Buffer).extendFromSlice [7, 8]).data.length →
      (((⟨1500, [1, 2, 3], 1⟩ : Buffer).extendFromSlice [7, 8]).read 4).1 =
        Except.ok (((⟨1500, [1, 2, 3], 1⟩ : Buffer).asBytes
          ++ [7, 8].take (min ([7, 8] : List Nat).length (1500 - 3))).take 4)) :=
  buffer_failed_read_pure ⟨1500, [1, 2, 3], 1⟩ 4 [7, 8]
    (by decide) (by decide)

end Wolo
